import Mathlib

/-!
Verification of the `paper-cv.go` image-comparison pipeline.

The Go sources are shallowly embedded below: machine integers become `ℤ`/`ℕ`,
`float64` arithmetic on pixel distances becomes exact `ℚ` arithmetic (the only
float facts the development relies on are order comparisons at exactly
representable values), the external `image.Image` interface becomes a bounds
rectangle plus a pixel accessor, and the external CIEDE2000 colour metric is a
parameter `d` of every definition that calls it.  Channels are modelled by the
lists of messages that flow over them; the scheduling freedom of the worker
pool is modelled explicitly where a claim is about it.
-/

namespace Icd

/-- A pixel as produced by Go's `color.Color.RGBA()`: alpha-premultiplied
16-bit red, green, blue and alpha channel values in `[0, 65535]`. -/
structure Pix where
  r : ℕ
  g : ℕ
  b : ℕ
  a : ℕ
deriving DecidableEq

instance : Inhabited Pix := ⟨⟨0, 0, 0, 0⟩⟩

/-- Go `image.Rectangle`, with the `Min`/`Max` corner points flattened into
four coordinates. -/
structure Rectangle where
  minX : ℤ
  minY : ℤ
  maxX : ℤ
  maxY : ℤ
deriving DecidableEq

/-- Go `Rectangle.Dx`. -/
def Rectangle.dx (r : Rectangle) : ℤ := r.maxX - r.minX

/-- Go `Rectangle.Dy`. -/
def Rectangle.dy (r : Rectangle) : ℤ := r.maxY - r.minY

/-- Go `Rectangle.Empty`. -/
def Rectangle.empty (r : Rectangle) : Bool :=
  r.minX ≥ r.maxX || r.minY ≥ r.maxY

/-- Go `Rectangle.Intersect`: pointwise max of the mins and min of the maxes,
and the zero rectangle when the result is empty. -/
def Rectangle.intersect (r s : Rectangle) : Rectangle :=
  let t : Rectangle :=
    ⟨max r.minX s.minX, max r.minY s.minY, min r.maxX s.maxX, min r.maxY s.maxY⟩
  if t.empty then ⟨0, 0, 0, 0⟩ else t

/-- Membership of a pixel position in a rectangle (Go `Point.In`). -/
def Rectangle.contains (r : Rectangle) (px py : ℤ) : Prop :=
  r.minX ≤ px ∧ px < r.maxX ∧ r.minY ≤ py ∧ py < r.maxY

instance (r : Rectangle) (px py : ℤ) : Decidable (r.contains px py) := by
  unfold Rectangle.contains; infer_instance

/-- Go `image.Image`, reduced to the two capabilities the program uses:
`Bounds()` and the pixel accessor `At`. -/
structure Image where
  bounds : Rectangle
  At : ℤ → ℤ → Pix

instance : Inhabited Image := ⟨⟨⟨0, 0, 0, 0⟩, fun _ _ => default⟩⟩

/-- Go's `SubImage` on the standard image types: the result shares the pixel
storage and takes the given rectangle as its bounds.  The tiler only passes
rectangles that are already intersected with the source bounds. -/
def Image.subImage (img : Image) (r : Rectangle) : Image :=
  ⟨r, img.At⟩

/-- `Unit` from `main.go`: a grid coordinate `ID` and the sub-image `Img`. -/
structure Unit where
  ID : ℤ × ℤ
  Img : Image

instance : Inhabited Unit := ⟨⟨(0, 0), default⟩⟩

/-- `UnitPair` from `main.go`. -/
structure UnitPair where
  UnitA : Unit
  UnitB : Unit

/-- Inner `x` loop of `splitImageIntoUnits`:
`for x := bounds.Min.X; x < bounds.Max.X; x += unitSize`.
The fuel argument only bounds the number of iterations; with `0 < unitSize`
and initial fuel `(bounds.Max.X - x).toNat` it cannot run out while
`x < bounds.Max.X` still holds. -/
def tileRowAux (img : Image) (unitSize : ℤ) (y : ℤ) : ℕ → ℤ → List Unit
  | 0, _ => []
  | fuel + 1, x =>
    if x < img.bounds.maxX then
      let rect := (Rectangle.mk x y (x + unitSize) (y + unitSize)).intersect img.bounds
      (if rect.empty then []
       else [{ ID := (Int.tdiv x unitSize, Int.tdiv y unitSize),
               Img := img.subImage rect }]) ++
        tileRowAux img unitSize y fuel (x + unitSize)
    else []

/-- Outer `y` loop of `splitImageIntoUnits`:
`for y := bounds.Min.Y; y < bounds.Max.Y; y += unitSize`. -/
def tileAux (img : Image) (unitSize : ℤ) : ℕ → ℤ → List Unit
  | 0, _ => []
  | fuel + 1, y =>
    if y < img.bounds.maxY then
      tileRowAux img unitSize y (img.bounds.maxX - img.bounds.minX).toNat
          img.bounds.minX ++
        tileAux img unitSize fuel (y + unitSize)
    else []

/-- `splitImageIntoUnits` from `main.go`: walk the image bounds with stride
`unitSize` in row-major order, intersect each candidate square with the
bounds, skip empty intersections, and emit a `Unit` (grid id = coordinate
divided by `unitSize`, Go division truncating toward zero) for each
surviving rectangle. -/
def splitImageIntoUnits (img : Image) (unitSize : ℤ) : List Unit :=
  tileAux img unitSize (img.bounds.maxY - img.bounds.minY).toNat img.bounds.minY

/-- `colorful.Color` from go-colorful: linear RGB channels in `[0,1]`,
modelled with exact rationals. -/
structure Colorful where
  R : ℚ
  G : ℚ
  B : ℚ

/-- `toColorfulColor` from `main.go`: normalise the 16-bit channels to
`[0,1]` and discard alpha. -/
def toColorfulColor (c : Pix) : Colorful :=
  { R := (c.r : ℚ) / 65535, G := (c.g : ℚ) / 65535, B := (c.b : ℚ) / 65535 }

/-- `math.MaxFloat64`, the largest finite `float64`, which is exactly
`(2 - 2 ^ (-52)) * 2 ^ 1023 = 2 ^ 1024 - 2 ^ 971`. -/
def maxFloat64 : ℚ := 2 ^ 1024 - 2 ^ 971

/-- The `totalDifference` accumulated by `compareUnits`' nested pixel loops
`for y := 0; y < Dy; y++ { for x := 0; x < Dx; x++ { ... } }`, parametrised
by the external per-pixel colour metric `d` (`colorful.DistanceCIEDE2000`). -/
def compareTotal (d : Colorful → Colorful → ℚ) (imgA imgB : Image) : ℚ :=
  ((List.range imgA.bounds.dy.toNat).flatMap fun (y : ℕ) =>
    (List.range imgA.bounds.dx.toNat).map fun (x : ℕ) =>
      d (toColorfulColor (imgA.At (imgA.bounds.minX + (x : ℤ)) (imgA.bounds.minY + (y : ℤ))))
        (toColorfulColor (imgB.At (imgB.bounds.minX + (x : ℤ)) (imgB.bounds.minY + (y : ℤ))))).sum

/-- `compareUnits` from `main.go`: return the sentinel `math.MaxFloat64`
when the two bounds have different extents, otherwise the arithmetic mean of
the per-pixel metric over all pixel positions (`0` when `pixelCount` is
zero). -/
def compareUnits (d : Colorful → Colorful → ℚ) (imgA imgB : Image) : ℚ :=
  if imgA.bounds.dx ≠ imgB.bounds.dx ∨ imgA.bounds.dy ≠ imgB.bounds.dy then
    maxFloat64
  else
    let pixelCount : ℚ := ((imgA.bounds.dx * imgA.bounds.dy : ℤ) : ℚ)
    if pixelCount = 0 then 0 else compareTotal d imgA imgB / pixelCount

/-- `worker` from `main.go`: drain the jobs channel, forwarding to the
results channel exactly the pairs whose computed distance is strictly
greater than the threshold. -/
def worker (d : Colorful → Colorful → ℚ) (jobs : List UnitPair)
    (threshold : ℚ) : List UnitPair :=
  match jobs with
  | [] => []
  | pair :: rest =>
    if compareUnits d pair.UnitA.Img pair.UnitB.Img > threshold then
      pair :: worker d rest threshold
    else
      worker d rest threshold

/-- The index pairs generated by the nested loops in `run`:
`for i := 0; i < n; i++ { for j := i + 1; j < n; j++ { ... } }`. -/
def pairIndices (n : ℕ) : List (ℕ × ℕ) :=
  (List.range n).flatMap fun i =>
    (List.range' (i + 1) (n - (i + 1))).map fun j => (i, j)

/-- The stream of pairs sent on the jobs channel by `run`:
`UnitPair{UnitA: units[i], UnitB: units[j]}` for each generated `(i, j)`. -/
def enumeratePairs (units : List Unit) : List UnitPair :=
  (pairIndices units.length).map fun ij =>
    { UnitA := units.getD ij.1 default, UnitB := units.getD ij.2 default }

/-- The filesystem behaviour visible to the sink, as an oracle saying which
`os.MkdirAll`, `os.Create` and `png.Encode` calls fail. -/
structure FsEnv where
  mkdirFails : String → Bool
  createFails : String → Bool
  encodeFails : String → Bool

/-- A file produced by the sink: its path and whether `png.Encode` succeeded
(on an encode failure the file was still created but holds no valid image). -/
structure FileWrite where
  path : String
  encoded : Bool
deriving DecidableEq

/-- The directory name `unit_%d_%d_vs_unit_%d_%d` built in
`saveDifferentPairs`. -/
def pairDirName (pair : UnitPair) : String :=
  "unit_" ++ toString pair.UnitA.ID.1 ++ "_" ++ toString pair.UnitA.ID.2 ++
    "_vs_unit_" ++ toString pair.UnitB.ID.1 ++ "_" ++ toString pair.UnitB.ID.2

/-- The file name `unit_%d_%d.png` built in `saveUnit`. -/
def unitFileName (u : Unit) : String :=
  "unit_" ++ toString u.ID.1 ++ "_" ++ toString u.ID.2 ++ ".png"

/-- `saveUnit` from `main.go`: create the file (on failure, log and return
without writing this unit), then encode the PNG into it (an encode failure
is logged; the created file remains). -/
def saveUnit (env : FsEnv) (u : Unit) (dir : String) : List FileWrite :=
  let filePath := dir ++ "/" ++ unitFileName u
  if env.createFails filePath then []
  else [{ path := filePath, encoded := !env.encodeFails filePath }]

/-- `saveDifferentPairs` from `main.go`: for each flagged pair build its
directory name and create the directory (on failure, log and `continue` to
the next result), then save both units into it. -/
def saveDifferentPairs (env : FsEnv) (results : List UnitPair)
    (outputDir : String) : List FileWrite :=
  match results with
  | [] => []
  | pair :: rest =>
    let pairDir := outputDir ++ "/" ++ pairDirName pair
    (if env.mkdirFails pairDir then []
     else saveUnit env pair.UnitA pairDir ++ saveUnit env pair.UnitB pairDir) ++
      saveDifferentPairs env rest outputDir

/-- `Config` from `main.go` (the fields `run` consumes; the input path is
only used by the external loader). -/
structure Config where
  InputPath : String
  OutputDirectory : String
  UnitSize : ℤ
  Threshold : ℚ
  CPUCores : ℕ

/-- Everything observable about one execution of `run`: the units, the two
channel capacities, the message streams on the two channels, the files the
sink produced, and whether `run` returned `nil`. -/
structure RunOutcome where
  unitCount : ℕ
  jobsCapacity : ℕ
  resultsCapacity : ℕ
  compared : List UnitPair
  flagged : List UnitPair
  writes : List FileWrite
  ok : Bool

/-- `run` from `main.go`, after the image has been loaded by the external
decoder.  The channel contents are modelled by the lists of messages sent on
them; `worker` here stands for the whole pool, which is legitimate because
the flagged stream of any pool schedule is a permutation of the one-worker
stream (proved below for claim C10). -/
def run (d : Colorful → Colorful → ℚ) (env : FsEnv) (cfg : Config)
    (img : Image) : RunOutcome :=
  let units := splitImageIntoUnits img cfg.UnitSize
  if units.length < 2 then
    { unitCount := units.length, jobsCapacity := 0, resultsCapacity := 0,
      compared := [], flagged := [], writes := [], ok := true }
  else
    let jobs := enumeratePairs units
    let results := worker d jobs cfg.Threshold
    { unitCount := units.length,
      jobsCapacity := units.length,
      resultsCapacity := units.length,
      compared := jobs,
      flagged := results,
      writes := saveDifferentPairs env results cfg.OutputDirectory,
      ok := true }

/-- The worker pool with an explicit schedule: each worker runs `worker` on
the sub-stream of jobs it happens to receive, and the results channel
carries the concatenation of the workers' outputs (in some interleaving,
which later theorems quantify over up to permutation). -/
def poolRun (d : Colorful → Colorful → ℚ) (threshold : ℚ)
    (schedule : List (List UnitPair)) : List UnitPair :=
  schedule.flatMap fun jobs => worker d jobs threshold

/-- Ceiling division `⌈a / b⌉` on naturals (meaningful for `0 < b`): the
per-axis unit count named in the spec. -/
def cdiv (a b : ℕ) : ℕ := (a + b - 1) / b

/-- The closed-form unit the spec describes for grid cell column start `x`,
row start `y`: the candidate square clipped to the image bounds. -/
def tilerSpecUnit (img : Image) (unitSize x y : ℤ) : Unit :=
  { ID := (Int.tdiv x unitSize, Int.tdiv y unitSize),
    Img := img.subImage
      ⟨x, y, min (x + unitSize) img.bounds.maxX, min (y + unitSize) img.bounds.maxY⟩ }

/-- The closed-form tiling stated by the spec: a
`⌈H/unitSize⌉ × ⌈W/unitSize⌉` grid in row-major order (rows outermost),
whose cell in column `c` of row `r` starts at
`(Min.X + c·unitSize, Min.Y + r·unitSize)` and is clipped to the bounds. -/
def tilerSpec (img : Image) (unitSize : ℤ) : List Unit :=
  (List.range (cdiv (img.bounds.maxY - img.bounds.minY).toNat unitSize.toNat)).flatMap
    fun (r : ℕ) =>
      (List.range (cdiv (img.bounds.maxX - img.bounds.minX).toNat unitSize.toNat)).map
        fun (c : ℕ) =>
          tilerSpecUnit img unitSize (img.bounds.minX + (c : ℤ) * unitSize)
            (img.bounds.minY + (r : ℤ) * unitSize)

theorem cdiv_zero_left (b : ℕ) : cdiv 0 b = 0 := by
  unfold cdiv
  rcases Nat.eq_zero_or_pos b with hb | hb
  · subst hb; rfl
  · exact Nat.div_eq_of_lt (by omega)

theorem cdiv_step (W b : ℕ) (hb : 0 < b) (hW : 0 < W) :
    cdiv W b = cdiv (W - b) b + 1 := by
  unfold cdiv
  rcases le_or_lt W b with h | h
  · have h1 : W - b = 0 := by omega
    have h2 : (0 + b - 1) / b = 0 := Nat.div_eq_of_lt (by omega)
    rw [h1, h2]
    exact Nat.div_eq_of_lt_le (by omega) (by omega)
  · have h1 : W + b - 1 = (W - b + b - 1) + b := by omega
    rw [h1, Nat.add_div_right _ hb]

/-- An element of `cdiv`'s grid starts strictly inside the axis. -/
theorem cdiv_lt_imp (W b c : ℕ) (hb : 0 < b) (hc : c < cdiv W b) : c * b < W := by
  have h1 : c + 1 ≤ (W + b - 1) / b := hc
  have h2 : (c + 1) * b ≤ W + b - 1 := (Nat.le_div_iff_mul_le hb).mp h1
  rw [show (c + 1) * b = c * b + b from by ring] at h2
  generalize c * b = t at h2 ⊢
  omega

/-- Conversely, a position inside the axis lies in some grid cell. -/
theorem lt_cdiv_of_lt (W b a : ℕ) (hb : 0 < b) (ha : a < W) : a / b < cdiv W b := by
  have hW : 0 < W := by omega
  have h1 : a / b ≤ (W - 1) / b := Nat.div_le_div_right (by omega)
  have h2 : cdiv W b = (W - 1) / b + 1 := by
    unfold cdiv
    have h3 : W + b - 1 = (W - 1) + b := by omega
    rw [h3, Nat.add_div_right _ hb]
  omega

theorem flatMap_congr_left {α β : Type _} {l : List α} {f g : α → List β}
    (h : ∀ a ∈ l, f a = g a) : l.flatMap f = l.flatMap g := by
  induction l with
  | nil => rfl
  | cons a l ih =>
    simp only [List.flatMap_cons]
    rw [h a (by simp), ih fun a ha => h a (by simp [ha])]

/-- The candidate square of an in-bounds cursor position intersects the
bounds in a nonempty clipped rectangle. -/
theorem intersect_clip (b : Rectangle) (x y u : ℤ) (hu : 0 < u)
    (hx1 : b.minX ≤ x) (hx2 : x < b.maxX) (hy1 : b.minY ≤ y) (hy2 : y < b.maxY) :
    (Rectangle.mk x y (x + u) (y + u)).intersect b =
        ⟨x, y, min (x + u) b.maxX, min (y + u) b.maxY⟩ ∧
      (⟨x, y, min (x + u) b.maxX, min (y + u) b.maxY⟩ : Rectangle).empty = false := by
  have hex : (⟨x, y, min (x + u) b.maxX, min (y + u) b.maxY⟩ : Rectangle).empty = false := by
    simp only [Rectangle.empty, Bool.or_eq_false_iff, decide_eq_false_iff_not, not_le]
    omega
  constructor
  · unfold Rectangle.intersect
    simp only [max_eq_left hx1, max_eq_left hy1]
    rw [if_neg (by simp [hex])]
  · exact hex

/-- Closed form of the inner `x` loop of the tiler. -/
theorem tileRowAux_closed (img : Image) (u y : ℤ) (hu : 0 < u)
    (hy1 : img.bounds.minY ≤ y) (hy2 : y < img.bounds.maxY) :
    ∀ (fuel : ℕ), ∀ x, img.bounds.minX ≤ x →
      (img.bounds.maxX - x).toNat ≤ fuel →
      tileRowAux img u y fuel x =
        (List.range (cdiv (img.bounds.maxX - x).toNat u.toNat)).map
          fun (c : ℕ) => tilerSpecUnit img u (x + (c : ℤ) * u) y := by
  intro fuel
  induction fuel with
  | zero =>
    intro x hx hfuel
    have h0 : (img.bounds.maxX - x).toNat = 0 := by omega
    rw [h0, cdiv_zero_left]
    rfl
  | succ fuel ih =>
    intro x hx hfuel
    by_cases hlt : x < img.bounds.maxX
    · have hclip := intersect_clip img.bounds x y u hu hx hlt hy1 hy2
      have hstep : cdiv (img.bounds.maxX - x).toNat u.toNat =
          cdiv (img.bounds.maxX - (x + u)).toNat u.toNat + 1 := by
        have h1 : (img.bounds.maxX - (x + u)).toNat =
            (img.bounds.maxX - x).toNat - u.toNat := by omega
        rw [h1]
        exact cdiv_step _ _ (by omega) (by omega)
      simp only [tileRowAux, if_pos hlt, hclip.1, hclip.2, Bool.false_eq_true,
        if_false, List.singleton_append]
      rw [ih (x + u) (by omega) (by omega), hstep, List.range_succ_eq_map,
        List.map_cons, List.map_map]
      congr 1
      · simp only [tilerSpecUnit, Nat.cast_zero, zero_mul, add_zero]
      · apply List.map_congr_left
        intro c _
        simp only [Function.comp_apply]
        rw [show x + ((c.succ : ℕ) : ℤ) * u = x + u + (c : ℤ) * u from by push_cast; ring]
    · have h0 : (img.bounds.maxX - x).toNat = 0 := by omega
      simp only [tileRowAux, if_neg hlt]
      rw [h0, cdiv_zero_left]
      rfl

/-- Closed form of the outer `y` loop of the tiler. -/
theorem tileAux_closed (img : Image) (u : ℤ) (hu : 0 < u) :
    ∀ (fuel : ℕ), ∀ y, img.bounds.minY ≤ y →
      (img.bounds.maxY - y).toNat ≤ fuel →
      tileAux img u fuel y =
        (List.range (cdiv (img.bounds.maxY - y).toNat u.toNat)).flatMap
          fun (r : ℕ) =>
            (List.range (cdiv (img.bounds.maxX - img.bounds.minX).toNat u.toNat)).map
              fun (c : ℕ) =>
                tilerSpecUnit img u (img.bounds.minX + (c : ℤ) * u)
                  (y + (r : ℤ) * u) := by
  intro fuel
  induction fuel with
  | zero =>
    intro y hy hfuel
    have h0 : (img.bounds.maxY - y).toNat = 0 := by omega
    rw [h0, cdiv_zero_left]
    rfl
  | succ fuel ih =>
    intro y hy hfuel
    by_cases hlt : y < img.bounds.maxY
    · have hstep : cdiv (img.bounds.maxY - y).toNat u.toNat =
          cdiv (img.bounds.maxY - (y + u)).toNat u.toNat + 1 := by
        have h1 : (img.bounds.maxY - (y + u)).toNat =
            (img.bounds.maxY - y).toNat - u.toNat := by omega
        rw [h1]
        exact cdiv_step _ _ (by omega) (by omega)
      simp only [tileAux, if_pos hlt]
      rw [tileRowAux_closed img u y hu hy hlt _ img.bounds.minX le_rfl le_rfl,
        ih (y + u) (by omega) (by omega), hstep, List.range_succ_eq_map,
        List.flatMap_cons, List.flatMap_map]
      congr 1
      · apply List.map_congr_left
        intro c _
        rw [show y + ((0 : ℕ) : ℤ) * u = y from by push_cast; ring]
      · apply flatMap_congr_left
        intro r _
        apply List.map_congr_left
        intro c _
        rw [show y + ((r.succ : ℕ) : ℤ) * u = y + u + (r : ℤ) * u from by push_cast; ring]
    · have h0 : (img.bounds.maxY - y).toNat = 0 := by omega
      simp only [tileAux, if_neg hlt]
      rw [h0, cdiv_zero_left]
      rfl

/-- The row-major tiler loop equals the spec's closed-form grid. -/
theorem splitImageIntoUnits_eq_tilerSpec (img : Image) (u : ℤ) (hu : 0 < u) :
    splitImageIntoUnits img u = tilerSpec img u := by
  unfold splitImageIntoUnits tilerSpec
  exact tileAux_closed img u hu _ img.bounds.minY le_rfl le_rfl

theorem tilerSpec_length (img : Image) (u : ℤ) :
    (tilerSpec img u).length =
      cdiv (img.bounds.maxY - img.bounds.minY).toNat u.toNat *
        cdiv (img.bounds.maxX - img.bounds.minX).toNat u.toNat := by
  unfold tilerSpec
  rw [List.length_flatMap]
  simp [Function.comp_def, List.map_const', List.sum_replicate]

theorem mem_tilerSpec {img : Image} {u : ℤ} {un : Unit} (h : un ∈ tilerSpec img u) :
    ∃ r c : ℕ, r < cdiv (img.bounds.maxY - img.bounds.minY).toNat u.toNat ∧
      c < cdiv (img.bounds.maxX - img.bounds.minX).toNat u.toNat ∧
      un = tilerSpecUnit img u (img.bounds.minX + (c : ℤ) * u)
        (img.bounds.minY + (r : ℤ) * u) := by
  unfold tilerSpec at h
  rw [List.mem_flatMap] at h
  obtain ⟨r, hr, h⟩ := h
  rw [List.mem_map] at h
  obtain ⟨c, hc, rfl⟩ := h
  exact ⟨r, c, List.mem_range.mp hr, List.mem_range.mp hc, rfl⟩

theorem tilerSpecUnit_mem (img : Image) (u : ℤ) (r c : ℕ)
    (hr : r < cdiv (img.bounds.maxY - img.bounds.minY).toNat u.toNat)
    (hc : c < cdiv (img.bounds.maxX - img.bounds.minX).toNat u.toNat) :
    tilerSpecUnit img u (img.bounds.minX + (c : ℤ) * u) (img.bounds.minY + (r : ℤ) * u) ∈
      tilerSpec img u := by
  unfold tilerSpec
  rw [List.mem_flatMap]
  exact ⟨r, List.mem_range.mpr hr, List.mem_map.mpr ⟨c, List.mem_range.mpr hc, rfl⟩⟩

/-- A grid cell start at index `c < cdiv` lies strictly inside the axis. -/
theorem cell_start_lt (lo hi u : ℤ) (hu : 0 < u) (c : ℕ)
    (hc : c < cdiv (hi - lo).toNat u.toNat) : lo + (c : ℤ) * u < hi := by
  rcases le_or_lt lo hi with hlo | hlo
  · have h := cdiv_lt_imp (hi - lo).toNat u.toNat c (by omega) hc
    have h2 : ((c * u.toNat : ℕ) : ℤ) < ((hi - lo).toNat : ℤ) := by exact_mod_cast h
    push_cast at h2
    rw [Int.toNat_of_nonneg (le_of_lt hu), Int.toNat_of_nonneg (by omega)] at h2
    linarith
  · exfalso
    have h0 : (hi - lo).toNat = 0 := by omega
    rw [h0, cdiv_zero_left] at hc
    omega

/-- Every axis position inside the bounds falls into some grid cell. -/
theorem cover_cell (lo hi u : ℤ) (hu : 0 < u) (p : ℤ) (h1 : lo ≤ p) (h2 : p < hi) :
    ∃ c : ℕ, c < cdiv (hi - lo).toNat u.toNat ∧
      lo + (c : ℤ) * u ≤ p ∧ p < lo + (c : ℤ) * u + u := by
  have hun : ((u.toNat : ℕ) : ℤ) = u := Int.toNat_of_nonneg (le_of_lt hu)
  have han : (((p - lo).toNat : ℕ) : ℤ) = p - lo := Int.toNat_of_nonneg (by omega)
  refine ⟨(p - lo).toNat / u.toNat, ?_, ?_, ?_⟩
  · exact lt_cdiv_of_lt _ _ _ (by omega) (by omega)
  · have h3 := Nat.div_mul_le_self (p - lo).toNat u.toNat
    have h4 : (((p - lo).toNat / u.toNat : ℕ) : ℤ) * ((u.toNat : ℕ) : ℤ) ≤
        (((p - lo).toNat : ℕ) : ℤ) := by exact_mod_cast h3
    rw [hun, han] at h4
    linarith
  · have h4 := Nat.mod_lt (p - lo).toNat (y := u.toNat) (by omega)
    have h5 := Nat.div_add_mod (p - lo).toNat u.toNat
    have h6 : (p - lo).toNat < ((p - lo).toNat / u.toNat) * u.toNat + u.toNat := by
      generalize hqq : (p - lo).toNat / u.toNat = q at h5
      generalize (p - lo).toNat % u.toNat = m at h4 h5
      generalize hq2 : q * u.toNat = w
      rw [show u.toNat * q = q * u.toNat from Nat.mul_comm _ _, hq2] at h5
      omega
    have h7 : (((p - lo).toNat : ℕ) : ℤ) <
        (((p - lo).toNat / u.toNat : ℕ) : ℤ) * ((u.toNat : ℕ) : ℤ) +
          ((u.toNat : ℕ) : ℤ) := by exact_mod_cast h6
    rw [hun, han] at h7
    linarith

/-- Distinct grid cells on an axis are disjoint: a position determines its
cell index. -/
theorem cell_unique (lo u : ℤ) (hu : 0 < u) (c1 c2 : ℕ) (p : ℤ)
    (h1 : lo + (c1 : ℤ) * u ≤ p) (h2 : p < lo + (c1 : ℤ) * u + u)
    (h3 : lo + (c2 : ℤ) * u ≤ p) (h4 : p < lo + (c2 : ℤ) * u + u) : c1 = c2 := by
  by_contra hne
  rcases Nat.lt_or_ge c1 c2 with h | h
  · have h5 : (c1 : ℤ) + 1 ≤ (c2 : ℤ) := by exact_mod_cast h
    have h6 : ((c1 : ℤ) + 1) * u ≤ (c2 : ℤ) * u :=
      mul_le_mul_of_nonneg_right h5 (le_of_lt hu)
    nlinarith
  · have h' : c2 < c1 := by omega
    have h5 : (c2 : ℤ) + 1 ≤ (c1 : ℤ) := by exact_mod_cast h'
    have h6 : ((c2 : ℤ) + 1) * u ≤ (c1 : ℤ) * u :=
      mul_le_mul_of_nonneg_right h5 (le_of_lt hu)
    nlinarith

theorem tilerSpecUnit_inj (img : Image) (u : ℤ) {x1 y1 x2 y2 : ℤ}
    (h : tilerSpecUnit img u x1 y1 = tilerSpecUnit img u x2 y2) :
    x1 = x2 ∧ y1 = y2 := by
  have h1 := congrArg (fun un => un.Img.bounds.minX) h
  have h2 := congrArg (fun un => un.Img.bounds.minY) h
  simp only [tilerSpecUnit, Image.subImage] at h1 h2
  exact ⟨h1, h2⟩

theorem pairwise_flatMap {α β : Type _} {R : β → β → Prop} {S : α → α → Prop}
    {l : List α} {f : α → List β}
    (hcross : ∀ a b, S a b → ∀ x ∈ f a, ∀ y ∈ f b, R x y) :
    l.Pairwise S → (∀ a ∈ l, (f a).Pairwise R) → (l.flatMap f).Pairwise R := by
  induction l with
  | nil => intro _ _; exact List.Pairwise.nil
  | cons a l ih =>
    intro hl hinner
    simp only [List.flatMap_cons]
    rw [List.pairwise_append]
    refine ⟨hinner a (by simp), ih hl.of_cons (fun b hb => hinner b (by simp [hb])), ?_⟩
    intro x hx z hz
    rw [List.mem_flatMap] at hz
    obtain ⟨b, hb, hzb⟩ := hz
    exact hcross a b (List.rel_of_pairwise_cons hl hb) x hx z hzb

theorem maxFloat64_pos : 0 < maxFloat64 := by
  unfold maxFloat64
  have h : (2 : ℚ) ^ 971 ≤ 2 ^ 1024 := by
    apply pow_le_pow_right₀ (by norm_num)
    omega
  have h2 : (0 : ℚ) < 2 ^ 971 := by positivity
  linarith

theorem compareTotal_nonneg (d : Colorful → Colorful → ℚ)
    (hnn : ∀ a b, 0 ≤ d a b) (A B : Image) : 0 ≤ compareTotal d A B := by
  apply List.sum_nonneg
  intro q hq
  rw [List.mem_flatMap] at hq
  obtain ⟨y, _, hq⟩ := hq
  rw [List.mem_map] at hq
  obtain ⟨x, _, rfl⟩ := hq
  exact hnn _ _

theorem compareTotal_empty (d : Colorful → Colorful → ℚ) (A B : Image)
    (h : A.bounds.dx ≤ 0 ∨ A.bounds.dy ≤ 0) : compareTotal d A B = 0 := by
  apply List.sum_eq_zero
  intro q hq
  rw [List.mem_flatMap] at hq
  obtain ⟨y, hy, hq⟩ := hq
  rw [List.mem_map] at hq
  obtain ⟨x, hx, rfl⟩ := hq
  rw [List.mem_range] at hx hy
  exfalso
  rcases h with h | h <;> omega

theorem compareTotal_self (d : Colorful → Colorful → ℚ)
    (hrefl : ∀ a, d a a = 0) (A : Image) : compareTotal d A A = 0 := by
  apply List.sum_eq_zero
  intro q hq
  rw [List.mem_flatMap] at hq
  obtain ⟨y, _, hq⟩ := hq
  rw [List.mem_map] at hq
  obtain ⟨x, _, rfl⟩ := hq
  exact hrefl _

theorem compareTotal_symm (d : Colorful → Colorful → ℚ)
    (hsym : ∀ a b, d a b = d b a) (A B : Image)
    (hdx : A.bounds.dx = B.bounds.dx) (hdy : A.bounds.dy = B.bounds.dy) :
    compareTotal d B A = compareTotal d A B := by
  unfold compareTotal
  rw [← hdx, ← hdy]
  congr 1
  apply flatMap_congr_left
  intro y _
  apply List.map_congr_left
  intro x _
  exact hsym _ _

theorem compareUnits_sentinel (d : Colorful → Colorful → ℚ) (A B : Image)
    (h : A.bounds.dx ≠ B.bounds.dx ∨ A.bounds.dy ≠ B.bounds.dy) :
    compareUnits d A B = maxFloat64 := by
  simp only [compareUnits]
  rw [if_pos h]

theorem compareUnits_nonneg (d : Colorful → Colorful → ℚ)
    (hnn : ∀ a b, 0 ≤ d a b) (A B : Image) : 0 ≤ compareUnits d A B := by
  simp only [compareUnits]
  split_ifs with h1 h2
  · exact le_of_lt maxFloat64_pos
  · exact le_refl 0
  · rcases lt_trichotomy ((A.bounds.dx * A.bounds.dy : ℤ) : ℚ) 0 with hpc | hpc | hpc
    · have hneg : A.bounds.dx * A.bounds.dy < 0 := by exact_mod_cast hpc
      have hzero : compareTotal d A B = 0 := by
        apply compareTotal_empty
        rcases mul_neg_iff.mp hneg with ⟨hd1, hd2⟩ | ⟨hd1, hd2⟩
        · exact Or.inr (le_of_lt hd2)
        · exact Or.inl (le_of_lt hd1)
      rw [hzero, zero_div]
    · exact absurd hpc h2
    · exact div_nonneg (compareTotal_nonneg d hnn A B) (le_of_lt hpc)

theorem compareUnits_self (d : Colorful → Colorful → ℚ)
    (hrefl : ∀ a, d a a = 0) (A : Image) : compareUnits d A A = 0 := by
  simp only [compareUnits]
  rw [if_neg (by simp), compareTotal_self d hrefl A]
  split_ifs <;> simp

theorem compareUnits_symm (d : Colorful → Colorful → ℚ)
    (hsym : ∀ a b, d a b = d b a) (A B : Image)
    (hdx : A.bounds.dx = B.bounds.dx) (hdy : A.bounds.dy = B.bounds.dy) :
    compareUnits d A B = compareUnits d B A := by
  have hA : ¬(A.bounds.dx ≠ B.bounds.dx ∨ A.bounds.dy ≠ B.bounds.dy) := by
    intro h
    exact h.elim (fun hh => hh hdx) fun hh => hh hdy
  have hB : ¬(B.bounds.dx ≠ A.bounds.dx ∨ B.bounds.dy ≠ A.bounds.dy) := by
    intro h
    exact h.elim (fun hh => hh hdx.symm) fun hh => hh hdy.symm
  simp only [compareUnits]
  rw [if_neg hA, if_neg hB,
    show ((B.bounds.dx * B.bounds.dy : ℤ) : ℚ) = ((A.bounds.dx * A.bounds.dy : ℤ) : ℚ) from by
      rw [hdx, hdy],
    compareTotal_symm d hsym A B hdx hdy]

theorem compareUnits_zero_pixels (d : Colorful → Colorful → ℚ) (A B : Image)
    (hdx : A.bounds.dx = B.bounds.dx) (hdy : A.bounds.dy = B.bounds.dy)
    (hz : A.bounds.dx * A.bounds.dy = 0) : compareUnits d A B = 0 := by
  have hA : ¬(A.bounds.dx ≠ B.bounds.dx ∨ A.bounds.dy ≠ B.bounds.dy) := by
    intro h
    exact h.elim (fun hh => hh hdx) fun hh => hh hdy
  simp only [compareUnits]
  rw [if_neg hA, if_pos (by exact_mod_cast hz)]

/-- The strict ordering used to state that the pair stream is emitted in
lexicographic index order. -/
def pairLex (p q : ℕ × ℕ) : Prop :=
  p.1 < q.1 ∨ (p.1 = q.1 ∧ p.2 < q.2)

theorem pairIndices_mem (n i j : ℕ) :
    (i, j) ∈ pairIndices n ↔ i < j ∧ j < n := by
  simp only [pairIndices, List.mem_flatMap, List.mem_map, List.mem_range,
    List.mem_range', Prod.mk.injEq]
  constructor
  · rintro ⟨i', hi', j', ⟨k, hk, hjk⟩, hij, hjj⟩
    omega
  · rintro ⟨hij, hjn⟩
    exact ⟨i, by omega, ⟨j, ⟨j - (i + 1), by omega, by omega⟩, rfl, rfl⟩⟩

theorem pairIndices_length_mul_two (n : ℕ) :
    2 * (pairIndices n).length = n * (n - 1) := by
  unfold pairIndices
  rw [List.length_flatMap]
  have h1 : (List.map
      (List.length ∘ fun i => (List.range' (i + 1) (n - (i + 1))).map fun j => (i, j))
      (List.range n)) = List.map (fun i => n - (i + 1)) (List.range n) := by
    apply List.map_congr_left
    intro a _
    simp [List.length_range']
  rw [h1]
  have h2 : ((List.range n).map fun i => n - (i + 1)).sum =
      ∑ i ∈ Finset.range n, (n - (i + 1)) := rfl
  rw [h2]
  have h3 : ∀ i ∈ Finset.range n, n - (i + 1) = n - 1 - i := by
    intro i _
    omega
  rw [Finset.sum_congr rfl h3, Finset.sum_range_reflect (fun i => i) n]
  rw [Nat.mul_comm]
  exact Finset.sum_range_id_mul_two n

theorem pairIndices_pairwise (n : ℕ) : (pairIndices n).Pairwise pairLex := by
  unfold pairIndices
  apply pairwise_flatMap (S := (· < ·))
  · intro a b hab x hx y hy
    rw [List.mem_map] at hx hy
    obtain ⟨j1, _, rfl⟩ := hx
    obtain ⟨j2, _, rfl⟩ := hy
    exact Or.inl hab
  · exact List.pairwise_lt_range n
  · intro a _
    apply List.Pairwise.map (R := (· < ·))
    · intro j1 j2 hj
      exact Or.inr ⟨rfl, hj⟩
    · exact List.pairwise_lt_range' _ _

theorem pairIndices_nodup (n : ℕ) : (pairIndices n).Nodup := by
  apply (pairIndices_pairwise n).imp
  intro p q hpq
  rcases hpq with h | ⟨_, h⟩ <;> intro he <;> rw [he] at h <;> omega

/-- `worker` is the filter of the job stream at the strict threshold test. -/
theorem worker_eq_filter (d : Colorful → Colorful → ℚ) (threshold : ℚ) :
    ∀ jobs, worker d jobs threshold =
      jobs.filter fun p => decide (compareUnits d p.UnitA.Img p.UnitB.Img > threshold) := by
  intro jobs
  induction jobs with
  | nil => rfl
  | cons pair rest ih =>
    by_cases h : compareUnits d pair.UnitA.Img pair.UnitB.Img > threshold
    · simp [worker, h, ih, List.filter_cons]
    · simp [worker, h, ih, List.filter_cons]

theorem mem_worker_iff (d : Colorful → Colorful → ℚ) (threshold : ℚ)
    (jobs : List UnitPair) (p : UnitPair) :
    p ∈ worker d jobs threshold ↔
      p ∈ jobs ∧ compareUnits d p.UnitA.Img p.UnitB.Img > threshold := by
  rw [worker_eq_filter, List.mem_filter]
  simp

/-- A pool over any schedule is the filter of the concatenated job stream. -/
theorem poolRun_eq_filter (d : Colorful → Colorful → ℚ) (threshold : ℚ)
    (schedule : List (List UnitPair)) :
    poolRun d threshold schedule =
      schedule.flatten.filter
        fun p => decide (compareUnits d p.UnitA.Img p.UnitB.Img > threshold) := by
  induction schedule with
  | nil => rfl
  | cons jobs rest ih =>
    simp only [poolRun, List.flatMap_cons, List.flatten_cons, List.filter_append]
    rw [worker_eq_filter]
    simp only [poolRun] at ih
    rw [ih]

/-! Concrete fixtures used by witnesses and counterexamples. -/

/-- A simple per-pixel metric (red-channel distance): symmetric, zero on the
diagonal and nonnegative, standing in for CIEDE2000 in concrete runs. -/
def dRdist : Colorful → Colorful → ℚ := fun a b => |a.R - b.R|

/-- A filesystem on which every operation succeeds. -/
def envOk : FsEnv := ⟨fun _ => false, fun _ => false, fun _ => false⟩

/-- A filesystem on which every directory creation fails. -/
def envMkdirFail : FsEnv := ⟨fun _ => true, fun _ => false, fun _ => false⟩

/-- A filesystem on which exactly one `os.Create` call fails: the one for
unit (0,0)'s file inside the (0,0)-vs-(1,0) pair directory. -/
def envFailA : FsEnv :=
  ⟨fun _ => false, fun s => s == "out/unit_0_0_vs_unit_1_0/unit_0_0.png", fun _ => false⟩

/-- A uniform black 4×4 image: at unitSize 2 it tiles into 4 units. -/
def imgUniform44 : Image := ⟨⟨0, 0, 4, 4⟩, fun _ _ => ⟨0, 0, 0, 65535⟩⟩

/-- A 1×1 black image. -/
def img11 : Image := ⟨⟨0, 0, 1, 1⟩, fun _ _ => ⟨0, 0, 0, 65535⟩⟩

/-- A 1×2 black image (same width as `img11`, different height). -/
def img12 : Image := ⟨⟨0, 0, 1, 2⟩, fun _ _ => ⟨0, 0, 0, 65535⟩⟩

/-- A 2×2 all-black region. -/
def imgBlack22 : Image := ⟨⟨0, 0, 2, 2⟩, fun _ _ => ⟨0, 0, 0, 65535⟩⟩

/-- A 2×2 all-red region (same extents as `imgBlack22`, offset origin). -/
def imgRed22 : Image := ⟨⟨2, 0, 4, 2⟩, fun _ _ => ⟨65535, 0, 0, 65535⟩⟩

def unitP : Unit := ⟨(0, 0), img11⟩

def unitQ : Unit := ⟨(0, 1), img12⟩

def unitR : Unit := ⟨(1, 0), img11⟩

def pairPQ : UnitPair := ⟨unitP, unitQ⟩

def pairPR : UnitPair := ⟨unitP, unitR⟩

def pairBR : UnitPair := ⟨⟨(0, 0), imgBlack22⟩, ⟨(1, 0), imgRed22⟩⟩

def cfg44 : Config := ⟨"in.png", "out", 2, 3, 4⟩

def cfg512 : Config := ⟨"in.png", "out", 512, 3, 4⟩

/-- The job stream of the 4-unit uniform image. -/
def jobs44 : List UnitPair := enumeratePairs (splitImageIntoUnits imgUniform44 2)

theorem enumeratePairs_length (units : List Unit) :
    (enumeratePairs units).length = (pairIndices units.length).length :=
  List.length_map _ _

/-! The claims. -/

/-- C2: for every `UnitPair` processed by a worker, the pair is forwarded to
the output queue if and only if its computed distance is strictly greater
than the configured threshold; a pair whose distance equals the threshold is
not forwarded.  The worker's output is exactly the filter of its job stream
at the strict test `distance > threshold`. -/
theorem C2_worker_threshold (d : Colorful → Colorful → ℚ) (threshold : ℚ)
    (jobs : List UnitPair) :
    worker d jobs threshold =
      jobs.filter (fun p => decide (compareUnits d p.UnitA.Img p.UnitB.Img > threshold)) ∧
    (∀ p, p ∈ worker d jobs threshold ↔
      p ∈ jobs ∧ compareUnits d p.UnitA.Img p.UnitB.Img > threshold) ∧
    (∀ p ∈ jobs, compareUnits d p.UnitA.Img p.UnitB.Img = threshold →
      p ∉ worker d jobs threshold) := by
  refine ⟨worker_eq_filter d threshold jobs, fun p => mem_worker_iff d threshold jobs p, ?_⟩
  intro p _ heq hmem
  rw [mem_worker_iff] at hmem
  rw [heq] at hmem
  exact lt_irrefl threshold hmem.2

/-- C2 witness: for the concrete black-vs-red pair the distance is 1, so the
pair is forwarded at threshold 1/2 and not forwarded at threshold 1 (the
boundary case `distance == threshold`). -/
theorem C2_worker_threshold_witness :
    pairBR ∈ worker dRdist [pairBR] (1 / 2) ∧ pairBR ∉ worker dRdist [pairBR] 1 := by
  have hval : compareUnits dRdist imgBlack22 imgRed22 = 1 := by
    norm_num [compareUnits, compareTotal, dRdist, toColorfulColor, Rectangle.dx,
      Rectangle.dy, imgBlack22, imgRed22, List.range_succ,
      show ((2 : ℤ)).toNat = 2 from rfl, List.flatMap_cons, List.flatMap_nil,
      List.sum_append, List.sum_cons, List.sum_nil, List.replicate]
  constructor
  · exact ((C2_worker_threshold dRdist (1 / 2) [pairBR]).2.1 pairBR).mpr
      ⟨by simp, by rw [show pairBR.UnitA.Img = imgBlack22 from rfl,
          show pairBR.UnitB.Img = imgRed22 from rfl, hval]; norm_num⟩
  · exact (C2_worker_threshold dRdist 1 [pairBR]).2.2 pairBR (by simp)
      (by rw [show pairBR.UnitA.Img = imgBlack22 from rfl,
        show pairBR.UnitB.Img = imgRed22 from rfl, hval])

/-- C3: for every image and every `unitSize > 0` the tiler produces exactly
`⌈W/unitSize⌉ × ⌈H/unitSize⌉` units (with `cdiv` the ceiling division), in
row-major order — it equals the closed-form grid `tilerSpec`, whose rows
(increasing `y`) are emitted outermost and columns (increasing `x`)
innermost — and every unit's extent in each dimension is
`min(unitSize, remaining pixels)`: interior units are `unitSize × unitSize`
and right/bottom edge units are clipped, not padded. -/
theorem C3_tiler_grid (img : Image) (u : ℤ) (hu : 0 < u) :
    splitImageIntoUnits img u = tilerSpec img u ∧
    (splitImageIntoUnits img u).length =
      cdiv (img.bounds.maxX - img.bounds.minX).toNat u.toNat *
        cdiv (img.bounds.maxY - img.bounds.minY).toNat u.toNat ∧
    ∀ un ∈ splitImageIntoUnits img u,
      un.Img.bounds.dx = min u (img.bounds.maxX - un.Img.bounds.minX) ∧
      un.Img.bounds.dy = min u (img.bounds.maxY - un.Img.bounds.minY) := by
  have heq := splitImageIntoUnits_eq_tilerSpec img u hu
  refine ⟨heq, ?_, ?_⟩
  · rw [heq, tilerSpec_length, Nat.mul_comm]
  · intro un hun
    rw [heq] at hun
    obtain ⟨r, c, hr, hc, rfl⟩ := mem_tilerSpec hun
    simp only [tilerSpecUnit, Image.subImage, Rectangle.dx, Rectangle.dy]
    omega

/-- C3 witness: the hypothesis `0 < unitSize` holds at the concrete
instance of the 4×4 image with unitSize 2. -/
theorem C3_tiler_grid_witness :
    (0 : ℤ) < 2 ∧
    (splitImageIntoUnits imgUniform44 2 = tilerSpec imgUniform44 2 ∧
      (splitImageIntoUnits imgUniform44 2).length =
        cdiv (imgUniform44.bounds.maxX - imgUniform44.bounds.minX).toNat (2 : ℤ).toNat *
          cdiv (imgUniform44.bounds.maxY - imgUniform44.bounds.minY).toNat (2 : ℤ).toNat ∧
      ∀ un ∈ splitImageIntoUnits imgUniform44 2,
        un.Img.bounds.dx = min 2 (imgUniform44.bounds.maxX - un.Img.bounds.minX) ∧
        un.Img.bounds.dy = min 2 (imgUniform44.bounds.maxY - un.Img.bounds.minY)) :=
  ⟨by norm_num, C3_tiler_grid imgUniform44 2 (by norm_num)⟩

/-- C5: for every list of `n` units the enumeration produces exactly
`n(n-1)/2` pairs; the generated index pairs are exactly the `(i, j)` with
`i < j < n`, each exactly once (the list has no duplicates), in
lexicographic order, never pairing an index with itself; and the pair
stream is that index list instantiated with the units. -/
theorem C5_pair_enumeration (units : List Unit) :
    (enumeratePairs units).length = units.length * (units.length - 1) / 2 ∧
    (∀ i j : ℕ, (i, j) ∈ pairIndices units.length ↔ i < j ∧ j < units.length) ∧
    (pairIndices units.length).Pairwise pairLex ∧
    (pairIndices units.length).Nodup ∧
    (∀ ij ∈ pairIndices units.length, ij.1 ≠ ij.2) ∧
    enumeratePairs units = (pairIndices units.length).map fun ij =>
      { UnitA := units.getD ij.1 default, UnitB := units.getD ij.2 default } := by
  refine ⟨?_, fun i j => pairIndices_mem units.length i j, pairIndices_pairwise _,
    pairIndices_nodup _, ?_, rfl⟩
  · have h := pairIndices_length_mul_two units.length
    have hm := enumeratePairs_length units
    generalize units.length * (units.length - 1) = m at h ⊢
    omega
  · rintro ⟨i, j⟩ hij
    have h := (pairIndices_mem units.length i j).mp hij
    simp only [ne_eq]
    omega

/-- C5 witness: at the concrete 4-unit list the enumeration has
`4·3/2 = 6` pairs. -/
theorem C5_pair_enumeration_witness :
    (enumeratePairs (splitImageIntoUnits imgUniform44 2)).length =
      (splitImageIntoUnits imgUniform44 2).length *
        ((splitImageIntoUnits imgUniform44 2).length - 1) / 2 :=
  (C5_pair_enumeration (splitImageIntoUnits imgUniform44 2)).1

/-- C6: with any per-pixel metric that is nonnegative, zero on equal colours
and symmetric (as CIEDE2000 is), the comparator's distance is nonnegative;
`compare(a, a) = 0`; `compare(a, b) = compare(b, a)` for equal-shaped
regions; and an equal-shaped region with zero pixels compares to 0. -/
theorem C6_comparator_algebra (d : Colorful → Colorful → ℚ)
    (hnn : ∀ a b, 0 ≤ d a b) (hrefl : ∀ a, d a a = 0)
    (hsym : ∀ a b, d a b = d b a) :
    (∀ A B : Image, 0 ≤ compareUnits d A B) ∧
    (∀ A : Image, compareUnits d A A = 0) ∧
    (∀ A B : Image, A.bounds.dx = B.bounds.dx → A.bounds.dy = B.bounds.dy →
      compareUnits d A B = compareUnits d B A) ∧
    (∀ A B : Image, A.bounds.dx = B.bounds.dx → A.bounds.dy = B.bounds.dy →
      A.bounds.dx * A.bounds.dy = 0 → compareUnits d A B = 0) :=
  ⟨compareUnits_nonneg d hnn, compareUnits_self d hrefl,
    fun A B hdx hdy => compareUnits_symm d hsym A B hdx hdy,
    fun A B hdx hdy hz => compareUnits_zero_pixels d A B hdx hdy hz⟩

/-- C6 witness: the red-channel metric satisfies the three metric
hypotheses, and the resulting concrete facts hold of the comparator. -/
theorem C6_comparator_algebra_witness :
    0 ≤ compareUnits dRdist imgBlack22 imgRed22 ∧
    compareUnits dRdist imgBlack22 imgBlack22 = 0 := by
  have h := C6_comparator_algebra dRdist (fun a b => abs_nonneg _)
    (fun a => by simp [dRdist]) (fun a b => abs_sub_comm _ _)
  exact ⟨h.1 imgBlack22 imgRed22, h.2.1 imgBlack22⟩

/-- C8: if tiling yields fewer than two units, the pipeline performs no
comparison and no persistence and the run still reports success. -/
theorem C8_too_few_units (d : Colorful → Colorful → ℚ) (env : FsEnv)
    (cfg : Config) (img : Image)
    (h : (splitImageIntoUnits img cfg.UnitSize).length < 2) :
    (run d env cfg img).compared = [] ∧ (run d env cfg img).flagged = [] ∧
    (run d env cfg img).writes = [] ∧ (run d env cfg img).ok = true := by
  simp only [run]
  rw [if_pos h]
  exact ⟨rfl, rfl, rfl, rfl⟩

/-- C8 witness: a 1×1 image at unitSize 512 tiles into a single unit, and
the concrete run is a successful no-op. -/
theorem C8_too_few_units_witness :
    (splitImageIntoUnits img11 cfg512.UnitSize).length < 2 ∧
    ((run dRdist envOk cfg512 img11).compared = [] ∧
      (run dRdist envOk cfg512 img11).flagged = [] ∧
      (run dRdist envOk cfg512 img11).writes = [] ∧
      (run dRdist envOk cfg512 img11).ok = true) :=
  ⟨by decide, C8_too_few_units dRdist envOk cfg512 img11 (by decide)⟩

/-- C1 fails as stated: the code sizes both channels with `len(units)`, not
the pair count.  On the 4×4 uniform image at unitSize 2 there are 4 units,
both channels get capacity 4, but the total pair count is `4·3/2 = 6`. -/
theorem C1_queue_capacity_counterexample :
    (run dRdist envOk cfg44 imgUniform44).unitCount = 4 ∧
    (run dRdist envOk cfg44 imgUniform44).jobsCapacity = 4 ∧
    (run dRdist envOk cfg44 imgUniform44).resultsCapacity = 4 ∧
    (run dRdist envOk cfg44 imgUniform44).compared.length = 6 ∧
    (run dRdist envOk cfg44 imgUniform44).jobsCapacity ≠
      (run dRdist envOk cfg44 imgUniform44).compared.length := by
  refine ⟨by decide, by decide, by decide, by decide, by decide⟩

/-- C1 (amended): whenever the pipeline runs (at least two units), the jobs
and results channels are each created with capacity `len(units)` — the unit
count, not the pair count — and for 4 or more units that capacity is
strictly smaller than the number of pairs enqueued, so the buffer alone
does not make producing non-blocking. -/
theorem C1_queue_capacity (d : Colorful → Colorful → ℚ) (env : FsEnv)
    (cfg : Config) (img : Image)
    (h : 2 ≤ (splitImageIntoUnits img cfg.UnitSize).length) :
    (run d env cfg img).jobsCapacity = (run d env cfg img).unitCount ∧
    (run d env cfg img).resultsCapacity = (run d env cfg img).unitCount ∧
    (4 ≤ (run d env cfg img).unitCount →
      (run d env cfg img).jobsCapacity < (run d env cfg img).compared.length) := by
  simp only [run]
  rw [if_neg (by omega)]
  refine ⟨rfl, rfl, ?_⟩
  intro h4
  show (splitImageIntoUnits img cfg.UnitSize).length <
    (enumeratePairs (splitImageIntoUnits img cfg.UnitSize)).length
  have hlen := pairIndices_length_mul_two (splitImageIntoUnits img cfg.UnitSize).length
  have hm := enumeratePairs_length (splitImageIntoUnits img cfg.UnitSize)
  have h4' : 4 ≤ (splitImageIntoUnits img cfg.UnitSize).length := h4
  have h3 : (splitImageIntoUnits img cfg.UnitSize).length * 3 ≤
      (splitImageIntoUnits img cfg.UnitSize).length *
        ((splitImageIntoUnits img cfg.UnitSize).length - 1) :=
    Nat.mul_le_mul_left _ (by omega)
  generalize (splitImageIntoUnits img cfg.UnitSize).length *
    ((splitImageIntoUnits img cfg.UnitSize).length - 1) = m at hlen h3
  omega

/-- C1 witness: the amended statement applied at the 4-unit instance, where
the hypothesis that at least two units exist is discharged concretely. -/
theorem C1_queue_capacity_witness :
    2 ≤ (splitImageIntoUnits imgUniform44 cfg44.UnitSize).length ∧
    ((run dRdist envOk cfg44 imgUniform44).jobsCapacity =
        (run dRdist envOk cfg44 imgUniform44).unitCount ∧
      (run dRdist envOk cfg44 imgUniform44).resultsCapacity =
        (run dRdist envOk cfg44 imgUniform44).unitCount ∧
      (4 ≤ (run dRdist envOk cfg44 imgUniform44).unitCount →
        (run dRdist envOk cfg44 imgUniform44).jobsCapacity <
          (run dRdist envOk cfg44 imgUniform44).compared.length)) :=
  ⟨by decide, C1_queue_capacity dRdist envOk cfg44 imgUniform44 (by decide)⟩

/-- C4 fails as stated: `math.MaxFloat64` is itself a finite threshold
value, and at `threshold = MaxFloat64` the mismatched-extent pair — whose
distance is exactly the sentinel `MaxFloat64` — is not flagged, because the
worker's comparison is strict. -/
theorem C4_mismatch_sentinel_counterexample :
    img11.bounds.dy ≠ img12.bounds.dy ∧
    compareUnits dRdist img11 img12 = maxFloat64 ∧
    worker dRdist [pairPQ] maxFloat64 = [] := by
  have hs : compareUnits dRdist img11 img12 = maxFloat64 :=
    compareUnits_sentinel dRdist img11 img12 (Or.inr (by decide))
  refine ⟨by decide, hs, ?_⟩
  have hA : pairPQ.UnitA.Img = img11 := rfl
  have hB : pairPQ.UnitB.Img = img12 := rfl
  simp only [worker, hA, hB, hs, gt_iff_lt, lt_irrefl, if_false]

/-- C4 (amended): whenever two regions have differing pixel extents the
comparator returns `math.MaxFloat64` — the maximum finite float64 — instead
of failing, and consequently such a pair is always flagged (it is in a
worker's output iff it is in that worker's jobs) under any threshold
strictly below `MaxFloat64`. -/
theorem C4_mismatch_sentinel (d : Colorful → Colorful → ℚ) (A B : Image)
    (hmis : A.bounds.dx ≠ B.bounds.dx ∨ A.bounds.dy ≠ B.bounds.dy) :
    compareUnits d A B = maxFloat64 ∧
    ∀ threshold : ℚ, threshold < maxFloat64 → ∀ (jobs : List UnitPair) (p : UnitPair),
      p.UnitA.Img = A → p.UnitB.Img = B →
      (p ∈ worker d jobs threshold ↔ p ∈ jobs) := by
  refine ⟨compareUnits_sentinel d A B hmis, ?_⟩
  intro t ht jobs p hA hB
  rw [mem_worker_iff]
  constructor
  · exact And.left
  · intro hp
    refine ⟨hp, ?_⟩
    rw [hA, hB, compareUnits_sentinel d A B hmis]
    exact ht

/-- C4 witness: at the concrete mismatched 1×1-vs-1×2 pair and the finite
threshold 3, the sentinel is returned and the pair is flagged. -/
theorem C4_mismatch_sentinel_witness :
    compareUnits dRdist img11 img12 = maxFloat64 ∧
    pairPQ ∈ worker dRdist [pairPQ] 3 := by
  have h := C4_mismatch_sentinel dRdist img11 img12 (Or.inr (by decide))
  exact ⟨h.1,
    (h.2 3 (by norm_num [maxFloat64]) [pairPQ] pairPQ rfl rfl).mpr (by simp)⟩

/-- C7 fails as stated: when only unit (0,0)'s `os.Create` call fails, the
sink logs and skips that file but still writes unit (1,0)'s file into the
same pair directory, so the pair's output is not skipped as a whole. -/
theorem C7_sink_failures_counterexample :
    envFailA.createFails "out/unit_0_0_vs_unit_1_0/unit_0_0.png" = true ∧
    saveDifferentPairs envFailA [pairPR] "out" =
      [{ path := "out/unit_0_0_vs_unit_1_0/unit_1_0.png", encoded := true }] := by
  exact ⟨by decide, by decide⟩

/-- C7 (amended): sink persistence failures are non-fatal and per-item: a
directory-creation failure drops that pair's entire output and the sink
continues with the remaining results; a unit-file creation failure drops
only that unit's file while the pair's other unit is still attempted; and
no filesystem behaviour changes the run's final success status. -/
theorem C7_sink_failures (env : FsEnv) (outputDir : String) (pair : UnitPair)
    (rest : List UnitPair) :
    (env.mkdirFails (outputDir ++ "/" ++ pairDirName pair) = true →
      saveDifferentPairs env (pair :: rest) outputDir =
        saveDifferentPairs env rest outputDir) ∧
    (env.mkdirFails (outputDir ++ "/" ++ pairDirName pair) = false →
      saveDifferentPairs env (pair :: rest) outputDir =
        saveUnit env pair.UnitA (outputDir ++ "/" ++ pairDirName pair) ++
          saveUnit env pair.UnitB (outputDir ++ "/" ++ pairDirName pair) ++
          saveDifferentPairs env rest outputDir) ∧
    (∀ (u : Unit) (dir : String),
      env.createFails (dir ++ "/" ++ unitFileName u) = true → saveUnit env u dir = []) ∧
    (∀ (d : Colorful → Colorful → ℚ) (cfg : Config) (img : Image),
      (run d env cfg img).ok = true) := by
  refine ⟨?_, ?_, ?_, ?_⟩
  · intro hfail
    simp only [saveDifferentPairs, hfail, if_true, List.nil_append]
  · intro hok
    simp only [saveDifferentPairs, hok, Bool.false_eq_true, if_false, List.append_assoc]
  · intro u dir hfail
    simp only [saveUnit, hfail, if_true]
  · intro d cfg img
    simp only [run]
    split <;> rfl

/-- C7 witness: with every directory creation failing, the concrete
one-result sink produces no files and the concrete run still succeeds. -/
theorem C7_sink_failures_witness :
    saveDifferentPairs envMkdirFail [pairPR] "out" = [] ∧
    (run dRdist envMkdirFail cfg44 imgUniform44).ok = true := by
  have h := C7_sink_failures envMkdirFail "out" pairPR []
  exact ⟨(h.1 rfl).trans rfl, h.2.2.2 dRdist cfg44 imgUniform44⟩

/-- C9: for `unitSize > 0` the tiler's units partition the image: every
unit's rectangle is nonempty and lies inside the bounds, every pixel of the
bounds lies in some unit's rectangle, two units containing a common pixel
are equal, and the unit list has no duplicates — so every pixel belongs to
exactly one unit. -/
theorem C9_tiler_partition (img : Image) (u : ℤ) (hu : 0 < u) :
    (∀ un ∈ splitImageIntoUnits img u, un.Img.bounds.empty = false) ∧
    (∀ un ∈ splitImageIntoUnits img u, ∀ px py,
      un.Img.bounds.contains px py → img.bounds.contains px py) ∧
    (∀ px py, img.bounds.contains px py →
      ∃ un ∈ splitImageIntoUnits img u, un.Img.bounds.contains px py) ∧
    (∀ un1 ∈ splitImageIntoUnits img u, ∀ un2 ∈ splitImageIntoUnits img u,
      ∀ px py, un1.Img.bounds.contains px py → un2.Img.bounds.contains px py →
        un1 = un2) ∧
    (splitImageIntoUnits img u).Nodup := by
  rw [splitImageIntoUnits_eq_tilerSpec img u hu]
  refine ⟨?_, ?_, ?_, ?_, ?_⟩
  · intro un hun
    obtain ⟨r, c, hr, hc, rfl⟩ := mem_tilerSpec hun
    have hx := cell_start_lt img.bounds.minX img.bounds.maxX u hu c hc
    have hy := cell_start_lt img.bounds.minY img.bounds.maxY u hu r hr
    simp only [tilerSpecUnit, Image.subImage, Rectangle.empty, Bool.or_eq_false_iff,
      decide_eq_false_iff_not, not_le]
    omega
  · intro un hun px py hcont
    obtain ⟨r, c, hr, hc, rfl⟩ := mem_tilerSpec hun
    simp only [tilerSpecUnit, Image.subImage, Rectangle.contains] at hcont ⊢
    have hcu : (0 : ℤ) ≤ (c : ℤ) * u := mul_nonneg (by positivity) (le_of_lt hu)
    have hru : (0 : ℤ) ≤ (r : ℤ) * u := mul_nonneg (by positivity) (le_of_lt hu)
    obtain ⟨h1, h2, h3, h4⟩ := hcont
    refine ⟨by linarith, lt_of_lt_of_le h2 (min_le_right _ _),
      by linarith, lt_of_lt_of_le h4 (min_le_right _ _)⟩
  · intro px py hcont
    obtain ⟨hx1, hx2, hy1, hy2⟩ := hcont
    obtain ⟨c, hc, hcl, hcr⟩ := cover_cell img.bounds.minX img.bounds.maxX u hu px hx1 hx2
    obtain ⟨r, hr, hrl, hrr⟩ := cover_cell img.bounds.minY img.bounds.maxY u hu py hy1 hy2
    refine ⟨tilerSpecUnit img u (img.bounds.minX + (c : ℤ) * u)
        (img.bounds.minY + (r : ℤ) * u),
      tilerSpecUnit_mem img u r c hr hc, ?_⟩
    simp only [tilerSpecUnit, Image.subImage, Rectangle.contains]
    exact ⟨hcl, lt_min (by linarith) hx2, hrl, lt_min (by linarith) hy2⟩
  · intro un1 hun1 un2 hun2 px py hc1 hc2
    obtain ⟨r1, c1, hr1, hc1', rfl⟩ := mem_tilerSpec hun1
    obtain ⟨r2, c2, hr2, hc2', rfl⟩ := mem_tilerSpec hun2
    simp only [tilerSpecUnit, Image.subImage, Rectangle.contains] at hc1 hc2
    obtain ⟨ha1, ha2, ha3, ha4⟩ := hc1
    obtain ⟨hb1, hb2, hb3, hb4⟩ := hc2
    have hceq : c1 = c2 := cell_unique img.bounds.minX u hu c1 c2 px ha1
      (lt_of_lt_of_le ha2 (min_le_left _ _)) hb1
      (lt_of_lt_of_le hb2 (min_le_left _ _))
    have hreq : r1 = r2 := cell_unique img.bounds.minY u hu r1 r2 py ha3
      (lt_of_lt_of_le ha4 (min_le_left _ _)) hb3
      (lt_of_lt_of_le hb4 (min_le_left _ _))
    rw [hceq, hreq]
  · unfold tilerSpec
    apply pairwise_flatMap (S := (· < ·))
    · intro r1 r2 hr x hx y hy
      rw [List.mem_map] at hx hy
      obtain ⟨c1, _, rfl⟩ := hx
      obtain ⟨c2, _, rfl⟩ := hy
      intro he
      have h2 := (tilerSpecUnit_inj img u he).2
      have h3 : (r1 : ℤ) * u = (r2 : ℤ) * u := by linarith
      have h4 : (r1 : ℤ) = (r2 : ℤ) := mul_right_cancel₀ (ne_of_gt hu) h3
      have : r1 = r2 := by exact_mod_cast h4
      omega
    · exact List.pairwise_lt_range _
    · intro r _
      apply List.Pairwise.map (R := (· < ·))
      · intro c1 c2 hc he
        have h1 := (tilerSpecUnit_inj img u he).1
        have h3 : (c1 : ℤ) * u = (c2 : ℤ) * u := by linarith
        have h4 : (c1 : ℤ) = (c2 : ℤ) := mul_right_cancel₀ (ne_of_gt hu) h3
        have : c1 = c2 := by exact_mod_cast h4
        omega
      · exact List.pairwise_lt_range _

/-- C9 witness: the partition facts instantiated at the concrete 4×4 image
with unitSize 2, whose positivity hypothesis is discharged concretely. -/
theorem C9_tiler_partition_witness :
    (0 : ℤ) < 2 ∧
    (∀ un ∈ splitImageIntoUnits imgUniform44 2, un.Img.bounds.empty = false) ∧
    (∀ px py, imgUniform44.bounds.contains px py →
      ∃ un ∈ splitImageIntoUnits imgUniform44 2, un.Img.bounds.contains px py) :=
  ⟨by norm_num, (C9_tiler_partition imgUniform44 2 (by norm_num)).1,
    (C9_tiler_partition imgUniform44 2 (by norm_num)).2.2.1⟩

/-- C10: the multiset of flagged pairs — hence the set of output directory
names — is determined by the image, unitSize and threshold alone: any two
pool runs whose schedules distribute the same enumerated job stream over
any numbers of workers, with arbitrarily interleaved outputs, produce the
same flagged pairs up to permutation, namely the filter of the enumerated
stream at the threshold. -/
theorem C10_flagged_deterministic (d : Colorful → Colorful → ℚ) (img : Image)
    (u : ℤ) (threshold : ℚ) (s1 s2 : List (List UnitPair))
    (out1 out2 : List UnitPair)
    (h1 : s1.flatten.Perm (enumeratePairs (splitImageIntoUnits img u)))
    (h2 : s2.flatten.Perm (enumeratePairs (splitImageIntoUnits img u)))
    (ho1 : out1.Perm (poolRun d threshold s1))
    (ho2 : out2.Perm (poolRun d threshold s2)) :
    out1.Perm out2 ∧
    out1.Perm ((enumeratePairs (splitImageIntoUnits img u)).filter
      fun p => decide (compareUnits d p.UnitA.Img p.UnitB.Img > threshold)) ∧
    (out1.map pairDirName).Perm (out2.map pairDirName) := by
  have k1 : out1.Perm ((enumeratePairs (splitImageIntoUnits img u)).filter
      fun p => decide (compareUnits d p.UnitA.Img p.UnitB.Img > threshold)) := by
    refine ho1.trans ?_
    rw [poolRun_eq_filter]
    exact h1.filter _
  have k2 : out2.Perm ((enumeratePairs (splitImageIntoUnits img u)).filter
      fun p => decide (compareUnits d p.UnitA.Img p.UnitB.Img > threshold)) := by
    refine ho2.trans ?_
    rw [poolRun_eq_filter]
    exact h2.filter _
  exact ⟨k1.trans k2.symm, k1, (k1.trans k2.symm).map _⟩

/-- C10 witness: a one-worker schedule and a two-worker split of the same
concrete job stream flag the same pairs up to permutation. -/
theorem C10_flagged_deterministic_witness :
    (poolRun dRdist 3 [jobs44]).Perm (poolRun dRdist 3 [jobs44.take 2, jobs44.drop 2]) :=
  (C10_flagged_deterministic dRdist imgUniform44 2 3 [jobs44]
    [jobs44.take 2, jobs44.drop 2] (poolRun dRdist 3 [jobs44])
    (poolRun dRdist 3 [jobs44.take 2, jobs44.drop 2])
    (by simp [jobs44])
    (by simp [jobs44, List.take_append_drop])
    (List.Perm.refl _) (List.Perm.refl _)).1

end Icd
